import Mathlib

/-!
Verification of the CSV type-inference tool (`src/csv_type_infer.c`).

The development embeds the two core components of the program:
the quote-aware record splitter `split_csv_line` (modelled faithfully,
including its in-place buffer rewriting) and the per-column type-inference
state machine built from `is_integer`, `is_real` and the per-cell update
performed by `main`'s scanning loop.

C strings are modelled as `List Char`; the NUL terminator is implicit
(reading past the end of the list yields `'\x00'`, matching C semantics
for a NUL-terminated buffer).
-/

/-- C `isspace` in the default locale: space, tab, newline, vertical tab,
form feed, carriage return. -/
def isspace (c : Char) : Bool :=
  c = ' ' || c = '\t' || c = '\n' || c = '\x0b' || c = '\x0c' || c = '\r'

/-- C `isdigit`: decimal digits only. -/
def isdigit (c : Char) : Bool :=
  '0' ≤ c && c ≤ '9'

/-- The pointer advance `while(isspace(*p)) p++;`. -/
def skipSpaces : List Char → List Char
  | [] => []
  | c :: rest => if isspace c then skipSpaces rest else c :: rest

/-- The pointer advance `if(*p=='+'||*p=='-') p++;`. -/
def skipSign : List Char → List Char
  | [] => []
  | c :: rest => if c = '+' ∨ c = '-' then rest else c :: rest

/-- The scan `while(isdigit(*p)) { dig=1; p++; }`: returns whether at least
one digit was consumed, together with the rest of the input. -/
def skipDigits : List Char → Bool × List Char
  | [] => (false, [])
  | c :: rest => if isdigit c then (true, (skipDigits rest).2) else (false, c :: rest)

/-- `is_integer` from the source: optional surrounding whitespace, optional
single sign, one or more digits, nothing else. -/
def is_integer (l : List Char) : Bool :=
  let p1 := skipSign (skipSpaces l)
  let r := skipDigits p1
  r.1 && (skipSpaces r.2).isEmpty

/-- The fractional-part scan of `is_real`:
`if(*p=='.'){ p++; while(isdigit(*p)){dig=1;p++;} }`. -/
def fracScan : List Char → Bool × List Char
  | [] => (false, [])
  | c :: rest => if c = '.' then skipDigits rest else (false, c :: rest)

/-- The tail of `is_real` after the mantissa: optional exponent
(`e`/`E`, optional sign, one or more digits required), then optional
trailing whitespace, then end of string. -/
def expCheck : List Char → Bool
  | [] => true
  | c :: rest =>
    if c = 'e' ∨ c = 'E' then
      let r := skipDigits (skipSign rest)
      r.1 && (skipSpaces r.2).isEmpty
    else (skipSpaces (c :: rest)).isEmpty

/-- `is_real` from the source: optional surrounding whitespace, optional
sign, digits and/or a fractional part (at least one digit overall), and an
optional exponent with mandatory digits. -/
def is_real (l : List Char) : Bool :=
  let p1 := skipSign (skipSpaces l)
  let r1 := skipDigits p1
  let r2 := fracScan r1.2
  if r1.1 || r2.1 then expCheck r2.2 else false

/-- The column type enumeration `ColType` from the source. -/
inductive ColType
  | TYPE_UNKNOWN
  | TYPE_INTEGER
  | TYPE_REAL
  | TYPE_TEXT
deriving DecidableEq, Repr, Fintype

open ColType

/-- The numeric value of each enumerator in the C `enum`, used to express
the total order Unknown < Integer < Real < Text. -/
def ColType.rank : ColType → Nat
  | TYPE_UNKNOWN => 0
  | TYPE_INTEGER => 1
  | TYPE_REAL => 2
  | TYPE_TEXT => 3

/-- One iteration of the inner loop of `main` (lines 192-203): fold one
field value into one column's type state. -/
def observe (t : ColType) (cell : List Char) : ColType :=
  if cell = [] then t
  else if t = TYPE_TEXT then t
  else if is_integer cell then (if t = TYPE_UNKNOWN then TYPE_INTEGER else t)
  else if is_real cell then
    (if t = TYPE_UNKNOWN ∨ t = TYPE_INTEGER then TYPE_REAL else t)
  else TYPE_TEXT

/-- Folding a whole sequence of field values into one column's state. -/
def observeAll (t : ColType) (cells : List (List Char)) : ColType :=
  cells.foldl observe t

/-- The end-of-stream default of `main` (line 209):
`if(types[i]==TYPE_UNKNOWN) types[i]=TYPE_TEXT;`. -/
def finalize (t : ColType) : ColType :=
  if t = TYPE_UNKNOWN then TYPE_TEXT else t

/-- Cell access with the padding of `main` (line 189): a missing field of a
short row reads as the empty string. -/
def getCell (row : List (List Char)) (i : Nat) : List Char :=
  row.getD i []

/-- One iteration of the row loop of `main` (lines 191-204): update every
column state from the corresponding cell, padding short rows with empty
strings and ignoring cells beyond the header's column count. -/
def observe_row (states : List ColType) (row : List (List Char)) : List ColType :=
  (List.range states.length).map (fun i => observe (states.getD i TYPE_UNKNOWN) (getCell row i))

/-- The whole scanning loop of `main` (lines 185-205) on already-split rows. -/
def processRows (states : List ColType) (rows : List (List (List Char))) : List ColType :=
  rows.foldl observe_row states

/-- The finalization loop of `main` (line 209) over all columns. -/
def finalizeTypes (states : List ColType) : List ColType :=
  states.map finalize

/-- Read one byte of the line buffer; positions at or past the end of the
list read as the NUL terminator, matching a NUL-terminated C buffer. -/
def bufGet (buf : List Char) (i : Nat) : Char :=
  buf.getD i '\x00'

/-- Read the C string starting at position `i` of the buffer: the bytes up
to the first NUL (the end of the list acts as the terminating NUL). -/
def readCStr (buf : List Char) (i : Nat) : List Char :=
  (buf.drop i).takeWhile (fun c => c ≠ '\x00')

/-- The quoted-field scan of `split_csv_line` (lines 78-84): reading at
`p`, writing the unescaped content in place at `w`.  A doubled quote
writes one literal quote; a lone quote or the end of the buffer ends the
scan.  Returns the rewritten buffer and the final read/write positions.
`fuel` bounds the iteration count; the callers pass `buf.length + 1`,
which is sufficient because every step advances `p`. -/
def quotedScan (fuel : Nat) (buf : List Char) (p w : Nat) : List Char × Nat × Nat :=
  match fuel with
  | 0 => (buf, p, w)
  | fuel + 1 =>
    if bufGet buf p = '"' then
      if bufGet buf (p + 1) = '"' then quotedScan fuel (buf.set w '"') (p + 2) (w + 1)
      else (buf, p + 1, w)
    else if bufGet buf p = '\x00' then (buf, p, w)
    else quotedScan fuel (buf.set w (bufGet buf p)) (p + 1) (w + 1)

/-- The scan `while(*p && *p!=delim) p++;` (lines 87 and 96). -/
def skipToDelim (fuel : Nat) (buf : List Char) (p : Nat) (d : Char) : Nat :=
  match fuel with
  | 0 => p
  | fuel + 1 =>
    if bufGet buf p ≠ '\x00' ∧ bufGet buf p ≠ d then skipToDelim fuel buf (p + 1) d
    else p

/-- The main loop of `split_csv_line` (lines 73-106).  `acc` accumulates
the recorded cell start positions in reverse.  Each iteration handles one
field: the quoted branch rewrites the buffer in place, NUL-terminates the
unescaped content, skips to the next delimiter and records `start + 1`;
the bare branch NUL-terminates at the delimiter and records `start`. -/
def splitLoop (fuel : Nat) (buf : List Char) (p count maxc : Nat) (d : Char)
    (acc : List Nat) : List Char × List Nat :=
  match fuel with
  | 0 => (buf, acc.reverse)
  | fuel + 1 =>
    if bufGet buf p = '\x00' ∨ maxc ≤ count then (buf, acc.reverse)
    else if bufGet buf p = '"' then
      let r := quotedScan (buf.length + 1) buf (p + 1) p
      let buf2 := r.1.set r.2.2 '\x00'
      let p2 := skipToDelim (buf2.length + 1) buf2 r.2.1 d
      let p3 := if bufGet buf2 p2 = d then p2 + 1 else p2
      splitLoop fuel buf2 p3 (count + 1) maxc d ((p + 1) :: acc)
    else
      let q := skipToDelim (buf.length + 1) buf p d
      if bufGet buf q = d then
        splitLoop fuel (buf.set q '\x00') (q + 1) (count + 1) maxc d (p :: acc)
      else (buf, (p :: acc).reverse)

/-- `split_csv_line` from the source: split one line into fields.  The
returned fields are the C strings read from the recorded cell start
positions in the final (rewritten) buffer, exactly as the caller `main`
reads them after the call returns. -/
def split_csv_line (line : List Char) (maxc : Nat) (d : Char) : List (List Char) :=
  let r := splitLoop (line.length + 1) line 0 0 maxc d []
  r.2.map (readCStr r.1)

/-- Reference split: the substrings obtained by cutting the line at every
occurrence of the delimiter (a split of the empty list is one empty
field, as in `String.splitOn`). -/
def splitAll (d : Char) : List Char → List (List Char)
  | [] => [[]]
  | c :: rest =>
    if c = d then [] :: splitAll d rest
    else (c :: (splitAll d rest).headD []) :: (splitAll d rest).tail

/-- Drop a final empty field from a reference split. -/
def dropTrailingEmpty : List (List Char) → List (List Char)
  | [] => []
  | [x] => if x = [] then [] else [x]
  | x :: y :: rest => x :: dropTrailingEmpty (y :: rest)

/-! ### Helper lemmas: the type-state machine -/

lemma observe_rank_le (t : ColType) (cell : List Char) : t.rank ≤ (observe t cell).rank := by
  cases t <;> simp [observe] <;> split_ifs <;> simp [ColType.rank]

lemma observeAll_rank_le (t : ColType) (cells : List (List Char)) :
    t.rank ≤ (observeAll t cells).rank := by
  induction cells generalizing t with
  | nil => simp [observeAll]
  | cons c rest ih =>
    exact Nat.le_trans (observe_rank_le t c) (ih (observe t c))

lemma observe_nil (t : ColType) : observe t [] = t := by
  simp [observe]

lemma is_integer_ne_nil {l : List Char} (h : is_integer l = true) : l ≠ [] := by
  intro hnil
  subst hnil
  exact absurd h (by decide)

lemma is_real_ne_nil {l : List Char} (h : is_real l = true) : l ≠ [] := by
  intro hnil
  subst hnil
  exact absurd h (by decide)

lemma observe_unknown_integer {v : List Char} (h : is_integer v = true) :
    observe TYPE_UNKNOWN v = TYPE_INTEGER := by
  simp [observe, is_integer_ne_nil h, h]

lemma observeAll_replicate_nil (t : ColType) (k : Nat) :
    observeAll t (List.replicate k []) = t := by
  induction k with
  | zero => rfl
  | succ n ih => simpa [observeAll, List.replicate_succ, observe_nil] using ih

/-! ### Helper lemmas: the literal classifiers -/

lemma skipSpaces_eq_nil_iff (l : List Char) :
    skipSpaces l = [] ↔ ∀ c ∈ l, isspace c = true := by
  induction l with
  | nil => simp [skipSpaces]
  | cons c rest ih =>
    by_cases hc : isspace c = true
    · simp [skipSpaces, hc, ih]
    · simp [skipSpaces, hc]

lemma isspace_not_dot {c : Char} (h : isspace c = true) : c ≠ '.' := by
  intro he
  subst he
  exact absurd h (by decide)

lemma isspace_not_e {c : Char} (h : isspace c = true) : ¬(c = 'e' ∨ c = 'E') := by
  intro he
  rcases he with he | he <;> (subst he; exact absurd h (by decide))

lemma is_integer_imp_is_real {l : List Char} (h : is_integer l = true) : is_real l = true := by
  unfold is_integer at h
  unfold is_real
  rw [Bool.and_eq_true] at h
  obtain ⟨hdig, hsp⟩ := h
  have hnil : skipSpaces (skipDigits (skipSign (skipSpaces l))).2 = [] := by
    simpa [List.isEmpty_iff] using hsp
  have hall := (skipSpaces_eq_nil_iff _).mp hnil
  have hfrac : fracScan (skipDigits (skipSign (skipSpaces l))).2
      = (false, (skipDigits (skipSign (skipSpaces l))).2) := by
    cases hc : (skipDigits (skipSign (skipSpaces l))).2 with
    | nil => simp [fracScan]
    | cons c rest =>
      have hcs : isspace c = true := hall c (by rw [hc]; exact List.mem_cons_self c rest)
      simp [fracScan, isspace_not_dot hcs]
  simp only [hdig, hfrac, Bool.true_or, if_true]
  cases hc : (skipDigits (skipSign (skipSpaces l))).2 with
  | nil => simp [expCheck]
  | cons c rest =>
    have hcs : isspace c = true := hall c (by rw [hc]; exact List.mem_cons_self c rest)
    have hne := isspace_not_e hcs
    rw [hc] at hnil
    simp [expCheck, hne, hnil]

/-! ### Claim theorems: the type-inference state machine -/

/-- C2: for every column and every sequence of observed field values, the
type state evolves monotonically along Unknown < Integer < Real < Text
(both for a single observation and for any fold of observations), and the
evidence sequence [integer literal, real literal, integer literal] ends in
state Real, not Integer. -/
theorem C2_type_state_monotone :
    (∀ t cell, t.rank ≤ (observe t cell).rank) ∧
    (∀ t cells, t.rank ≤ (observeAll t cells).rank) ∧
    (∀ a b c : List Char, is_integer a = true → is_real b = true →
      is_integer b = false → is_integer c = true →
      observeAll TYPE_UNKNOWN [a, b, c] = TYPE_REAL) := by
  refine ⟨observe_rank_le, observeAll_rank_le, ?_⟩
  intro a b c ha hb hbi hc
  have h1 : observe TYPE_UNKNOWN a = TYPE_INTEGER := observe_unknown_integer ha
  have h2 : observe TYPE_INTEGER b = TYPE_REAL := by
    simp [observe, is_real_ne_nil hb, hbi, hb]
  have h3 : observe TYPE_REAL c = TYPE_REAL := by
    simp [observe, is_integer_ne_nil hc, hc]
  simp [observeAll, h1, h2, h3]

/-- Witness for C2 at the concrete evidence sequence ["1", "2.5", "3"]. -/
theorem C2_type_state_monotone_witness :
    is_integer "1".data = true ∧ is_real "2.5".data = true ∧
    is_integer "2.5".data = false ∧ is_integer "3".data = true ∧
    observeAll TYPE_UNKNOWN ["1".data, "2.5".data, "3".data] = TYPE_REAL :=
  ⟨by decide, by decide, by decide, by decide,
    C2_type_state_monotone.2.2 "1".data "2.5".data "3".data
      (by decide) (by decide) (by decide) (by decide)⟩

/-- C5: boundary behaviour of the literal classifiers: `"  42  "` is an
integer literal; `"3.14e10"` is a real and not an integer literal; `"3."`
is a real literal; `"."` and `"1e"` are neither (so a non-Text column
observing them becomes Text — in fact every column does, Text being
terminal); the empty string passes neither test and leaves every column
state unchanged. -/
theorem C5_literal_boundaries :
    is_integer "  42  ".data = true ∧
    (is_real "3.14e10".data = true ∧ is_integer "3.14e10".data = false) ∧
    is_real "3.".data = true ∧
    (is_integer ".".data = false ∧ is_real ".".data = false ∧
      ∀ t, observe t ".".data = TYPE_TEXT ∨ t = TYPE_TEXT) ∧
    (is_integer "1e".data = false ∧ is_real "1e".data = false ∧
      ∀ t, observe t "1e".data = TYPE_TEXT ∨ t = TYPE_TEXT) ∧
    (is_integer ([] : List Char) = false ∧ is_real ([] : List Char) = false ∧
      ∀ t, observe t [] = t) := by
  refine ⟨by decide, ⟨by decide, by decide⟩, by decide,
    ⟨by decide, by decide, ?_⟩, ⟨by decide, by decide, ?_⟩, by decide, by decide, ?_⟩ <;>
    decide

/-- C6: at end of stream, `finalize` maps a column still in Unknown state
to Text and leaves Integer, Real and Text columns unchanged (stated for
each column of a column-state list, as in the finalization loop). -/
theorem C6_finalize_unknown_to_text :
    (∀ ts : List ColType, ∀ i, i < ts.length → ts.getD i TYPE_UNKNOWN = TYPE_UNKNOWN →
      (finalizeTypes ts).getD i TYPE_UNKNOWN = TYPE_TEXT) ∧
    (∀ ts : List ColType, ∀ i, i < ts.length → ts.getD i TYPE_UNKNOWN ≠ TYPE_UNKNOWN →
      (finalizeTypes ts).getD i TYPE_UNKNOWN = ts.getD i TYPE_UNKNOWN) := by
  have hmap : ∀ (ts : List ColType) (i : Nat), i < ts.length →
      (finalizeTypes ts).getD i TYPE_UNKNOWN = finalize (ts.getD i TYPE_UNKNOWN) := by
    intro ts i hi
    have hi' : i < (finalizeTypes ts).length := by simpa [finalizeTypes] using hi
    rw [List.getD_eq_getElem _ _ hi', List.getD_eq_getElem _ _ hi]
    simp [finalizeTypes]
  constructor
  · intro ts i hi hu
    rw [hmap ts i hi, hu]
    rfl
  · intro ts i hi hu
    rw [hmap ts i hi]
    unfold finalize
    rw [if_neg hu]

/-- Witness for C6 at a concrete column-state list. -/
theorem C6_finalize_unknown_to_text_witness :
    ((0 : Nat) < ([TYPE_UNKNOWN, TYPE_REAL] : List ColType).length ∧
      (finalizeTypes [TYPE_UNKNOWN, TYPE_REAL]).getD 0 TYPE_UNKNOWN = TYPE_TEXT) ∧
    ((1 : Nat) < ([TYPE_UNKNOWN, TYPE_REAL] : List ColType).length ∧
      (finalizeTypes [TYPE_UNKNOWN, TYPE_REAL]).getD 1 TYPE_UNKNOWN = TYPE_REAL) :=
  ⟨⟨by decide, C6_finalize_unknown_to_text.1 [TYPE_UNKNOWN, TYPE_REAL] 0 (by decide) (by decide)⟩,
    ⟨by decide, by
      rw [C6_finalize_unknown_to_text.2 [TYPE_UNKNOWN, TYPE_REAL] 1 (by decide) (by decide)]
      decide⟩⟩

/-- C7: every string accepted by the integer-literal test is accepted by
the real-literal test, and because the scanning loop checks `is_integer`
first, such a value moves an Unknown column to the narrower Integer
state. -/
theorem C7_integer_subsumed_by_real (l : List Char) (h : is_integer l = true) :
    is_real l = true ∧ observe TYPE_UNKNOWN l = TYPE_INTEGER :=
  ⟨is_integer_imp_is_real h, observe_unknown_integer h⟩

/-- Witness for C7 at the concrete literal " -42 ". -/
theorem C7_integer_subsumed_by_real_witness :
    is_integer " -42 ".data = true ∧
    is_real " -42 ".data = true ∧ observe TYPE_UNKNOWN " -42 ".data = TYPE_INTEGER :=
  ⟨by decide, (C7_integer_subsumed_by_real " -42 ".data (by decide)).1,
    (C7_integer_subsumed_by_real " -42 ".data (by decide)).2⟩

/-- C8: observing an empty field value is the identity on every column
state, and a column whose only non-empty evidence is a single integer
literal ends in state Integer no matter how many empty observations are
interleaved before or after it. -/
theorem C8_empty_evidence_neutral :
    (∀ t, observe t [] = t) ∧
    (∀ (n m : Nat) (v : List Char), is_integer v = true →
      observeAll TYPE_UNKNOWN (List.replicate n [] ++ v :: List.replicate m []) =
        TYPE_INTEGER) := by
  refine ⟨observe_nil, ?_⟩
  intro n m v hv
  unfold observeAll
  rw [List.foldl_append]
  have h1 : List.foldl observe TYPE_UNKNOWN (List.replicate n []) = TYPE_UNKNOWN :=
    observeAll_replicate_nil TYPE_UNKNOWN n
  rw [h1]
  simp only [List.foldl_cons, observe_unknown_integer hv]
  exact observeAll_replicate_nil TYPE_INTEGER m

/-- Witness for C8 with two empty rows before and three after the literal "7". -/
theorem C8_empty_evidence_neutral_witness :
    is_integer "7".data = true ∧
    observeAll TYPE_UNKNOWN
      (List.replicate 2 [] ++ "7".data :: List.replicate 3 []) = TYPE_INTEGER :=
  ⟨by decide, C8_empty_evidence_neutral.2 2 3 "7".data (by decide)⟩

/-! ### Claim theorems: concrete splitter evaluations -/

/-- C1: evaluating the splitter at the line `"a""b",c` with delimiter `,`.
The quoted branch writes the unescaped content in place starting at the
opening quote's position (`w` starts at `start`) but records the field as
`start + 1`, so the returned first field is `"b`, not the `a"b` required
by the claim: the first character of every non-empty quoted field's
content is lost. -/
theorem C1_doubled_quote_eval :
    split_csv_line ['"', 'a', '"', '"', 'b', '"', ',', 'c'] 8192 ',' = [['"', 'b'], ['c']] ∧
    split_csv_line ['"', 'a', '"', '"', 'b', '"', ',', 'c'] 8192 ','
      ≠ [['a', '"', 'b'], ['c']] := by
  constructor <;> decide

/-- C4: evaluating the splitter at the unterminated quoted line `"abc,def`
with delimiter `,`.  One best-effort field is produced and no error is
raised, but for the same off-by-one reason as in C1 its content is
`bc,def`, not the `abc,def` required by the claim. -/
theorem C4_unterminated_quote_eval :
    split_csv_line ['"', 'a', 'b', 'c', ',', 'd', 'e', 'f'] 8192 ','
      = [['b', 'c', ',', 'd', 'e', 'f']] ∧
    split_csv_line ['"', 'a', 'b', 'c', ',', 'd', 'e', 'f'] 8192 ','
      ≠ [['a', 'b', 'c', ',', 'd', 'e', 'f']] := by
  constructor <;> decide

/-- C3 counterexample: on the quote-free line `a,` the splitter returns the
single field `a`, not the two fields `a` and `""` that splitting on every
occurrence of the delimiter would produce. -/
theorem C3_trailing_delimiter_cex :
    split_csv_line ['a', ','] 8192 ',' = [['a']] ∧
    split_csv_line ['a', ','] 8192 ',' ≠ splitAll ',' ['a', ','] := by
  constructor <;> decide

/-- C9 counterexample: the line `a,,` ends in the delimiter, yet it yields
two fields while `a,` (the same line with the trailing delimiter removed)
yields one, refuting the claimed field-count equation. -/
theorem C9_trailing_delimiter_count_cex :
    (split_csv_line ['a', ',', ','] 8192 ',').length = 2 ∧
    (split_csv_line ['a', ','] 8192 ',').length = 1 ∧
    (split_csv_line ['a', ',', ','] 8192 ',').length
      ≠ (split_csv_line ['a', ','] 8192 ',').length := by
  refine ⟨by decide, by decide, by decide⟩

/-! ### Helper lemmas: buffer reads and writes -/

lemma bufGet_lt_of_ne {buf : List Char} {i : Nat} (h : bufGet buf i ≠ '\x00') :
    i < buf.length := by
  by_contra hge
  exact h (List.getD_eq_default _ _ (Nat.le_of_not_lt hge))

lemma bufGet_set_ne {buf : List Char} {i j : Nat} (c : Char) (h : i ≠ j) :
    bufGet (buf.set i c) j = bufGet buf j := by
  unfold bufGet
  rw [List.getD_eq_getElem?_getD, List.getD_eq_getElem?_getD, List.getElem?_set_ne h]

lemma bufGet_set_self {buf : List Char} {i : Nat} (c : Char) (h : i < buf.length) :
    bufGet (buf.set i c) i = c := by
  unfold bufGet
  rw [List.getD_eq_getElem _ _ (by simpa using h)]
  simp

lemma drop_set_of_lt (buf : List Char) (i j : Nat) (c : Char) (h : i < j) :
    (buf.set i c).drop j = buf.drop j := by
  apply List.ext_getElem?
  intro k
  rw [List.getElem?_drop, List.getElem?_drop, List.getElem?_set_ne (by omega)]

/-! ### Helper lemmas: the delimiter scan -/

lemma skipToDelim_spec (fuel : Nat) (buf : List Char) (p : Nat) (d : Char)
    (h : buf.length ≤ p + fuel) :
    p ≤ skipToDelim fuel buf p d ∧
    (∀ j, p ≤ j → j < skipToDelim fuel buf p d →
        bufGet buf j ≠ d ∧ bufGet buf j ≠ '\x00') ∧
    (bufGet buf (skipToDelim fuel buf p d) = d ∨
      bufGet buf (skipToDelim fuel buf p d) = '\x00') := by
  induction fuel generalizing p with
  | zero =>
    simp only [skipToDelim]
    refine ⟨Nat.le_refl p, ?_, ?_⟩
    · intro j h1 h2; omega
    · right; exact List.getD_eq_default _ _ (by omega)
  | succ n ih =>
    simp only [skipToDelim]
    by_cases hc : bufGet buf p ≠ '\x00' ∧ bufGet buf p ≠ d
    · rw [if_pos hc]
      obtain ⟨h1, h2, h3⟩ := ih (p + 1) (by omega)
      refine ⟨by omega, ?_, h3⟩
      intro j hj1 hj2
      rcases Nat.eq_or_lt_of_le hj1 with rfl | hlt
      · exact ⟨hc.2, hc.1⟩
      · exact h2 j hlt hj2
    · rw [if_neg hc]
      push_neg at hc
      refine ⟨Nat.le_refl _, ?_, ?_⟩
      · intro j h1 h2; omega
      · by_cases h0 : bufGet buf p = '\x00'
        · right; exact h0
        · left; exact hc h0

/-! ### Helper lemmas: reading C strings out of the buffer -/

lemma readCStr_of_nul {buf : List Char} {i : Nat} (h : bufGet buf i = '\x00') :
    readCStr buf i = [] := by
  unfold readCStr
  cases hd : buf.drop i with
  | nil => rfl
  | cons c rest =>
    have h0 : (buf.drop i)[0]? = some c := by rw [hd]; simp
    rw [List.getElem?_drop, Nat.add_zero] at h0
    unfold bufGet at h
    rw [List.getD_eq_getElem?_getD, h0] at h
    simp only [Option.getD_some] at h
    simp [List.takeWhile_cons, h]

lemma readCStr_cons {buf : List Char} {i : Nat} (h : bufGet buf i ≠ '\x00') :
    readCStr buf i = bufGet buf i :: readCStr buf (i + 1) := by
  have hlt : i < buf.length := bufGet_lt_of_ne h
  have hbg : bufGet buf i = buf[i] := List.getD_eq_getElem _ _ hlt
  unfold readCStr
  rw [List.drop_eq_getElem_cons hlt, List.takeWhile_cons, ← hbg]
  simp [h]

lemma readCStr_segment (n : Nat) (buf : List Char) (p : Nat)
    (hne : ∀ k, k < n → bufGet buf (p + k) ≠ '\x00')
    (hend : bufGet buf (p + n) = '\x00') :
    readCStr buf p = (List.range n).map (fun k => bufGet buf (p + k)) := by
  induction n generalizing p with
  | zero => simpa using readCStr_of_nul (by simpa using hend)
  | succ m ih =>
    have h0 : bufGet buf p ≠ '\x00' := by simpa using hne 0 (by omega)
    rw [readCStr_cons h0]
    rw [ih (p + 1) (fun k hk => by
          have := hne (k + 1) (by omega)
          simpa [show p + (k + 1) = p + 1 + k by omega] using this)
        (by simpa [show p + 1 + m = p + (m + 1) by omega] using hend)]
    rw [List.range_succ_eq_map, List.map_cons, List.map_map, Nat.add_zero]
    congr 1
    apply List.map_congr_left
    intro k _
    simp [Function.comp, show p + (k + 1) = p + 1 + k by omega]

lemma drop_take_eq_range_map (n : Nat) (buf : List Char) (p : Nat)
    (h : p + n ≤ buf.length) :
    (buf.drop p).take n = (List.range n).map (fun k => bufGet buf (p + k)) := by
  induction n generalizing p with
  | zero => simp
  | succ m ih =>
    have hp : p < buf.length := by omega
    rw [List.drop_eq_getElem_cons hp, List.take_succ_cons]
    have ihm := ih (p + 1) (by omega)
    rw [ihm]
    rw [List.range_succ_eq_map, List.map_cons, List.map_map, Nat.add_zero]
    congr 1
    · exact (List.getD_eq_getElem _ _ hp).symm
    · apply List.map_congr_left
      intro k _
      simp [Function.comp, show p + (k + 1) = p + 1 + k by omega]

/-! ### Helper lemmas: the reference split -/

lemma splitAll_ne_nil (d : Char) (l : List Char) : splitAll d l ≠ [] := by
  cases l with
  | nil => simp [splitAll]
  | cons c rest => by_cases h : c = d <;> simp [splitAll, h]

lemma splitAll_exists_cons (d : Char) (l : List Char) :
    ∃ h t, splitAll d l = h :: t := by
  cases hs : splitAll d l with
  | nil => exact absurd hs (splitAll_ne_nil d l)
  | cons a b => exact ⟨a, b, rfl⟩

lemma splitAll_no_delim (d : Char) (l : List Char) (h : ∀ c ∈ l, c ≠ d) :
    splitAll d l = [l] := by
  induction l with
  | nil => rfl
  | cons c rest ih =>
    have hc : c ≠ d := h c (List.mem_cons_self c rest)
    have ih' := ih (fun x hx => h x (List.mem_cons_of_mem c hx))
    simp [splitAll, hc, ih']

lemma splitAll_split_at_delim (d : Char) (A B : List Char) (h : ∀ c ∈ A, c ≠ d) :
    splitAll d (A ++ d :: B) = A :: splitAll d B := by
  induction A with
  | nil => simp [splitAll]
  | cons c A' ih =>
    have hc : c ≠ d := h c (List.mem_cons_self c A')
    have ih' := ih (fun x hx => h x (List.mem_cons_of_mem c hx))
    simp [splitAll, hc, ih']

lemma splitAll_append_delim (d : Char) (w : List Char) :
    splitAll d (w ++ [d]) = splitAll d w ++ [[]] := by
  induction w with
  | nil => simp [splitAll]
  | cons c w' ih =>
    by_cases hc : c = d
    · subst hc
      simp [splitAll, ih]
    · obtain ⟨h, t, hs⟩ := splitAll_exists_cons d w'
      simp [splitAll, hc, ih, hs]

/-! ### Helper lemmas: dropping a trailing empty field -/

lemma dropTrailingEmpty_append_nil (L : List (List Char)) :
    dropTrailingEmpty (L ++ [[]]) = L := by
  induction L with
  | nil => simp [dropTrailingEmpty]
  | cons x L' ih =>
    cases L' with
    | nil => simp [dropTrailingEmpty]
    | cons y L'' => simpa [dropTrailingEmpty] using ih

lemma dropTrailingEmpty_no_trailing (d : Char) (w : List Char) (hw : w ≠ [])
    (hlast : w.getLast? ≠ some d) :
    dropTrailingEmpty (splitAll d w) = splitAll d w := by
  induction w with
  | nil => exact absurd rfl hw
  | cons c rest ih =>
    cases rest with
    | nil =>
      have hc : c ≠ d := fun he => hlast (by simp [he])
      simp [splitAll, hc, dropTrailingEmpty]
    | cons c2 rest2 =>
      have hlast' : (c2 :: rest2).getLast? ≠ some d := by
        simpa [List.getLast?_cons_cons] using hlast
      have ih' := ih (by simp) hlast'
      obtain ⟨h, t, hs⟩ := splitAll_exists_cons d (c2 :: rest2)
      by_cases hc : c = d
      · rw [show splitAll d (c :: c2 :: rest2) = [] :: splitAll d (c2 :: rest2) by
          simp [splitAll, hc]]
        rw [hs] at ih' ⊢
        rw [show dropTrailingEmpty ([] :: h :: t) = [] :: dropTrailingEmpty (h :: t) from rfl]
        rw [ih']
      · rw [show splitAll d (c :: c2 :: rest2)
            = (c :: (splitAll d (c2 :: rest2)).headD []) :: (splitAll d (c2 :: rest2)).tail by
          simp [splitAll, hc]]
        rw [hs] at ih' ⊢
        simp only [List.headD_cons, List.tail_cons]
        cases t with
        | nil => simp [dropTrailingEmpty]
        | cons t1 t2 =>
          have hdte : dropTrailingEmpty (t1 :: t2) = t1 :: t2 := by
            have heq : dropTrailingEmpty (h :: t1 :: t2) = h :: dropTrailingEmpty (t1 :: t2) := rfl
            rw [heq] at ih'
            exact (List.cons_eq_cons.mp ih').2
          rw [show dropTrailingEmpty ((c :: h) :: t1 :: t2)
              = (c :: h) :: dropTrailingEmpty (t1 :: t2) from rfl, hdte]

/-! ### The splitter on quote-free lines -/

lemma splitLoop_noQuote (d : Char) (hd0 : d ≠ '\x00') (fuel : Nat) :
    ∀ (buf : List Char) (p count maxc : Nat) (acc : List Nat),
    (∀ j, p ≤ j → j < buf.length → bufGet buf j ≠ '"' ∧ bufGet buf j ≠ '\x00') →
    buf.length ≤ p + fuel →
    ∃ fb starts,
      splitLoop fuel buf p count maxc d acc = (fb, acc.reverse ++ starts) ∧
      fb.length = buf.length ∧
      (∀ j, j < p → bufGet fb j = bufGet buf j) ∧
      starts.map (readCStr fb)
        = (dropTrailingEmpty (splitAll d (buf.drop p))).take (maxc - count) := by
  induction fuel with
  | zero =>
    intro buf p count maxc acc hq hfuel
    refine ⟨buf, [], by simp [splitLoop], rfl, fun j _ => rfl, ?_⟩
    rw [List.drop_eq_nil_of_le (by omega)]
    simp [splitAll, dropTrailingEmpty]
  | succ n ih =>
    intro buf p count maxc acc hq hfuel
    by_cases hp : buf.length ≤ p
    · have h0 : bufGet buf p = '\x00' := List.getD_eq_default _ _ hp
      refine ⟨buf, [], ?_, rfl, fun j _ => rfl, ?_⟩
      · simp [splitLoop, h0]
      · rw [List.drop_eq_nil_of_le hp]
        simp [splitAll, dropTrailingEmpty]
    · push_neg at hp
      have hq0 := hq p (Nat.le_refl p) hp
      by_cases hcnt : maxc ≤ count
      · -- the field budget is exhausted: the loop stops at once
        refine ⟨buf, [], ?_, rfl, fun j _ => rfl, ?_⟩
        · simp only [splitLoop]
          rw [if_pos (Or.inr hcnt)]
          simp
        · rw [show maxc - count = 0 by omega]
          simp
      push_neg at hcnt
      have hcond : ¬(bufGet buf p = '\x00' ∨ maxc ≤ count) := by
        push_neg
        exact ⟨hq0.2, by omega⟩
      obtain ⟨hq1, hq2, hq3⟩ := skipToDelim_spec (buf.length + 1) buf p d (by omega)
      set q := skipToDelim (buf.length + 1) buf p d with hqdef
      have hqlen : q ≤ buf.length := by
        by_contra hgt
        push_neg at hgt
        exact (hq2 buf.length (by omega) (by omega)).2
          (List.getD_eq_default _ _ (Nat.le_refl _))
      rcases hq3 with hqd | hqnul
      · -- a delimiter closes the field at position q
        have hqlt : q < buf.length := bufGet_lt_of_ne (by rw [hqd]; exact hd0)
        have hstep : splitLoop (n + 1) buf p count maxc d acc
            = splitLoop n (buf.set q '\x00') (q + 1) (count + 1) maxc d (p :: acc) := by
          simp only [splitLoop]
          rw [if_neg hcond, if_neg (show ¬bufGet buf p = '"' from hq0.1), ← hqdef,
            if_pos hqd]
        have hq' : ∀ j, q + 1 ≤ j → j < (buf.set q '\x00').length →
            bufGet (buf.set q '\x00') j ≠ '"' ∧ bufGet (buf.set q '\x00') j ≠ '\x00' := by
          intro j hj hjl
          rw [bufGet_set_ne _ (by omega)]
          exact hq j (by omega) (by simpa using hjl)
        obtain ⟨fb, starts, hrec, hlen, hagree, hfields⟩ :=
          ih (buf.set q '\x00') (q + 1) (count + 1) maxc (p :: acc) hq'
            (by simp only [List.length_set]; omega)
        refine ⟨fb, p :: starts, ?_, by simpa using hlen, ?_, ?_⟩
        · rw [hstep, hrec]
          simp
        · intro j hj
          rw [hagree j (by omega), bufGet_set_ne _ (by omega)]
        · -- the produced fields
          have hdrop : (buf.set q '\x00').drop (q + 1) = buf.drop (q + 1) :=
            drop_set_of_lt buf q (q + 1) '\x00' (by omega)
          rw [hdrop] at hfields
          -- decompose the suffix at the delimiter
          have hAmap : (buf.drop p).take (q - p)
              = (List.range (q - p)).map (fun k => bufGet buf (p + k)) :=
            drop_take_eq_range_map (q - p) buf p (by omega)
          have hsplitp : buf.drop p = (buf.drop p).take (q - p) ++ d :: buf.drop (q + 1) := by
            conv_lhs => rw [← List.take_append_drop (q - p) (buf.drop p)]
            congr 1
            rw [List.drop_drop, show p + (q - p) = q by omega,
              List.drop_eq_getElem_cons hqlt]
            congr 1
            rw [← List.getD_eq_getElem buf '\x00' hqlt]
            exact hqd
          have hAnd : ∀ c ∈ (buf.drop p).take (q - p), c ≠ d := by
            intro c hc
            rw [hAmap] at hc
            obtain ⟨k, hk, rfl⟩ := List.mem_map.mp hc
            have hk' : k < q - p := List.mem_range.mp hk
            exact (hq2 (p + k) (by omega) (by omega)).1
          have hsplitAll : splitAll d (buf.drop p)
              = (buf.drop p).take (q - p) :: splitAll d (buf.drop (q + 1)) := by
            rw [hsplitp, splitAll_split_at_delim d _ _ hAnd, ← hsplitp]
          -- the head field read from the final buffer
          have hread : readCStr fb p
              = (List.range (q - p)).map (fun k => bufGet fb (p + k)) := by
            apply readCStr_segment
            · intro k hk
              rw [hagree (p + k) (by omega), bufGet_set_ne _ (by omega)]
              exact (hq2 (p + k) (by omega) (by omega)).2
            · rw [show p + (q - p) = q by omega, hagree q (by omega),
                bufGet_set_self _ hqlt]
          have hreadA : readCStr fb p = (buf.drop p).take (q - p) := by
            rw [hread, hAmap]
            apply List.map_congr_left
            intro k hk
            have hk' : k < q - p := List.mem_range.mp hk
            rw [hagree (p + k) (by omega), bufGet_set_ne _ (by omega)]
          obtain ⟨sh, st, hsc⟩ := splitAll_exists_cons d (buf.drop (q + 1))
          rw [List.map_cons, hfields, hreadA, hsplitAll, hsc]
          rw [show dropTrailingEmpty ((buf.drop p).take (q - p) :: sh :: st)
              = (buf.drop p).take (q - p) :: dropTrailingEmpty (sh :: st) from rfl]
          rw [show maxc - count = (maxc - (count + 1)) + 1 by omega, List.take_succ_cons]
      · -- no delimiter: the field runs to the end of the line
        have hqeq : q = buf.length := by
          by_contra hne
          exact (hq q hq1 (by omega)).2 hqnul
        have hstep : splitLoop (n + 1) buf p count maxc d acc = (buf, (p :: acc).reverse) := by
          simp only [splitLoop]
          rw [if_neg hcond, if_neg (show ¬bufGet buf p = '"' from hq0.1), ← hqdef,
            if_neg (show ¬bufGet buf q = d by rw [hqnul]; exact fun h => hd0 h.symm)]
        refine ⟨buf, [p], by rw [hstep]; simp, rfl, fun j _ => rfl, ?_⟩
        have hread : readCStr buf p
            = (List.range (buf.length - p)).map (fun k => bufGet buf (p + k)) := by
          apply readCStr_segment
          · intro k hk
            exact (hq (p + k) (by omega) (by omega)).2
          · exact List.getD_eq_default _ _ (by omega)
        have hreadA : readCStr buf p = buf.drop p := by
          rw [hread, ← drop_take_eq_range_map (buf.length - p) buf p (by omega)]
          rw [List.take_of_length_le (by simp)]
        have hnd : ∀ c ∈ buf.drop p, c ≠ d := by
          intro c hc
          obtain ⟨k, hk, hck⟩ := List.mem_iff_getElem.mp hc
          have hk' : k < buf.length - p := by simpa using hk
          have : bufGet buf (p + k) = c := by
            rw [← hck, List.getElem_drop]
            exact List.getD_eq_getElem buf '\x00' (by omega)
          rw [← this]
          exact (hq2 (p + k) (by omega) (by omega)).1
        rw [List.map_cons, List.map_nil, hreadA, splitAll_no_delim d _ hnd]
        have hne : buf.drop p ≠ [] := by
          intro hnil
          have := congrArg List.length hnil
          simp at this
          omega
        rw [show maxc - count = (maxc - count - 1) + 1 by omega]
        simp [dropTrailingEmpty, hne]

lemma split_csv_line_noQuote_trunc (line : List Char) (d : Char) (maxc : Nat)
    (hd0 : d ≠ '\x00') (hline : ∀ c ∈ line, c ≠ '"' ∧ c ≠ '\x00') :
    split_csv_line line maxc d = (dropTrailingEmpty (splitAll d line)).take maxc := by
  obtain ⟨fb, starts, hrec, hlen, hagree, hfields⟩ :=
    splitLoop_noQuote d hd0 (line.length + 1) line 0 0 maxc []
      (fun j hj hjl => by
        unfold bufGet
        rw [List.getD_eq_getElem _ _ hjl]
        exact hline _ (List.getElem_mem _))
      (by omega)
  simp only [split_csv_line]
  rw [hrec]
  simpa using hfields

lemma splitAll_length_le (d : Char) (l : List Char) :
    (splitAll d l).length ≤ l.length + 1 := by
  induction l with
  | nil => simp [splitAll]
  | cons c rest ih =>
    obtain ⟨h, t, hs⟩ := splitAll_exists_cons d rest
    rw [hs] at ih
    by_cases hc : c = d <;> simp [splitAll, hc, hs] <;> simp at ih <;> omega

lemma dropTrailingEmpty_length_le :
    ∀ L : List (List Char), (dropTrailingEmpty L).length ≤ L.length
  | [] => by simp [dropTrailingEmpty]
  | [x] => by by_cases h : x = [] <;> simp [dropTrailingEmpty, h]
  | x :: y :: rest => by
    have := dropTrailingEmpty_length_le (y :: rest)
    simp only [dropTrailingEmpty, List.length_cons] at this ⊢
    omega

lemma split_csv_line_noQuote (line : List Char) (d : Char) (maxc : Nat)
    (hd0 : d ≠ '\x00') (hline : ∀ c ∈ line, c ≠ '"' ∧ c ≠ '\x00')
    (hm : line.length < maxc) :
    split_csv_line line maxc d = dropTrailingEmpty (splitAll d line) := by
  rw [split_csv_line_noQuote_trunc line d maxc hd0 hline]
  apply List.take_of_length_le
  have h1 := dropTrailingEmpty_length_le (splitAll d line)
  have h2 := splitAll_length_le d line
  omega

lemma splitLoop_length_ge (d : Char) (fuel : Nat) :
    ∀ (buf : List Char) (p count maxc : Nat) (acc : List Nat),
    acc.length ≤ (splitLoop fuel buf p count maxc d acc).2.length := by
  induction fuel with
  | zero =>
    intro buf p count maxc acc
    simp [splitLoop]
  | succ n ih =>
    intro buf p count maxc acc
    simp only [splitLoop]
    split
    · simp
    · split
      · exact Nat.le_trans (by simp) (ih _ _ _ _ _)
      · split
        · exact Nat.le_trans (by simp) (ih _ _ _ _ _)
        · simp

/-- C3 (amended): for every quote-free (and NUL-free) line and delimiter
other than the quote and NUL characters, with `max_fields` larger than the
line length, `split_csv_line` returns the substrings obtained by splitting
the line on every occurrence of the delimiter, except that a final empty
substring (arising from a trailing delimiter, or from the empty line) is
omitted. -/
theorem C3_split_no_quotes (line : List Char) (d : Char) (maxc : Nat)
    (hd0 : d ≠ '\x00') (hline : ∀ c ∈ line, c ≠ '"' ∧ c ≠ '\x00')
    (hm : line.length < maxc) :
    split_csv_line line maxc d = dropTrailingEmpty (splitAll d line) :=
  split_csv_line_noQuote line d maxc hd0 hline hm

/-- Witness for C3 at the concrete quote-free line `x,,yz`. -/
theorem C3_split_no_quotes_witness :
    (',' ≠ '\x00') ∧ (∀ c ∈ ['x', ',', ',', 'y', 'z'], c ≠ '"' ∧ c ≠ '\x00') ∧
    (['x', ',', ',', 'y', 'z'].length < 8192) ∧
    split_csv_line ['x', ',', ',', 'y', 'z'] 8192 ','
      = dropTrailingEmpty (splitAll ',' ['x', ',', ',', 'y', 'z']) :=
  ⟨by decide, by decide, by decide,
    C3_split_no_quotes ['x', ',', ',', 'y', 'z'] ',' 8192 (by decide) (by decide) (by decide)⟩

/-- C9 (amended): the splitter never emits a field for the empty text that
follows a final delimiter.  For every `max_fields`, the empty line yields
zero fields; a non-empty (NUL-free) line yields at least one field
whenever `max_fields ≥ 1`; and an unquoted line formed by appending one
trailing delimiter to a non-empty line that does not itself end in the
delimiter yields exactly the fields of that shorter line, for every
`max_fields` whatsoever (the truncation regime included).  (The stronger
claim — that any line ending in the delimiter has as many fields as the
line with that delimiter removed — is refuted by
`C9_trailing_delimiter_count_cex`.) -/
theorem C9_no_trailing_empty_field :
    (∀ (maxc : Nat) (d : Char), split_csv_line [] maxc d = []) ∧
    (∀ (line : List Char) (maxc : Nat) (d : Char), (∀ c ∈ line, c ≠ '\x00') →
      line ≠ [] → 1 ≤ maxc → 1 ≤ (split_csv_line line maxc d).length) ∧
    (∀ (w : List Char) (d : Char) (maxc : Nat), d ≠ '\x00' → d ≠ '"' →
      (∀ c ∈ w, c ≠ '"' ∧ c ≠ '\x00') → w ≠ [] → w.getLast? ≠ some d →
      split_csv_line (w ++ [d]) maxc d = split_csv_line w maxc d) := by
  refine ⟨?_, ?_, ?_⟩
  · intro maxc d
    simp [split_csv_line, splitLoop, bufGet]
  · intro line maxc d hnul hne hmax
    cases line with
    | nil => exact absurd rfl hne
    | cons c rest =>
      have hc0 : bufGet (c :: rest) 0 = c := rfl
      have hcne : c ≠ '\x00' := hnul c (List.mem_cons_self c rest)
      simp only [split_csv_line, List.length_map, List.length_cons]
      generalize (rest.length + 1 : Nat) = m
      simp only [splitLoop]
      rw [if_neg (by push_neg; exact ⟨by rw [hc0]; exact hcne, by omega⟩)]
      split
      · exact Nat.le_trans (by simp) (splitLoop_length_ge d _ _ _ _ _ _)
      · split
        · exact Nat.le_trans (by simp) (splitLoop_length_ge d _ _ _ _ _ _)
        · simp
  · intro w d maxc hd0 hdq hw hne hlast
    have hline' : ∀ c ∈ w ++ [d], c ≠ '"' ∧ c ≠ '\x00' := by
      intro c hc
      rcases List.mem_append.mp hc with h | h
      · exact hw c h
      · simp only [List.mem_singleton] at h
        subst h
        exact ⟨hdq, hd0⟩
    have h1 := split_csv_line_noQuote_trunc (w ++ [d]) d maxc hd0 hline'
    have h2 := split_csv_line_noQuote_trunc w d maxc hd0 hw
    rw [h1, h2, splitAll_append_delim, dropTrailingEmpty_append_nil,
      dropTrailingEmpty_no_trailing d w hne hlast]

/-- Witness for C9 at the empty line, the line `x`, and the pair `ab,`/`ab`
with the smallest field budget `max_fields = 1` (the truncation regime). -/
theorem C9_no_trailing_empty_field_witness :
    split_csv_line [] 8192 ',' = [] ∧
    (1 ≤ (split_csv_line ['x'] 8192 ',').length) ∧
    split_csv_line (['a', 'b'] ++ [',']) 1 ',' = split_csv_line ['a', 'b'] 1 ',' :=
  ⟨C9_no_trailing_empty_field.1 8192 ',',
    C9_no_trailing_empty_field.2.1 ['x'] 8192 ',' (by decide) (by decide) (by decide),
    C9_no_trailing_empty_field.2.2 ['a', 'b'] ',' 1 (by decide) (by decide) (by decide)
      (by decide) (by decide)⟩

/-! ### Column noninterference -/

lemma observe_row_length (states : List ColType) (row : List (List Char)) :
    (observe_row states row).length = states.length := by
  simp [observe_row]

lemma observe_row_getD (states : List ColType) (row : List (List Char)) (i : Nat)
    (h : i < states.length) :
    (observe_row states row).getD i TYPE_UNKNOWN
      = observe (states.getD i TYPE_UNKNOWN) (getCell row i) := by
  have h' : i < (observe_row states row).length := by rw [observe_row_length]; exact h
  rw [List.getD_eq_getElem _ _ h']
  simp only [observe_row, List.getElem_map, List.getElem_range]

lemma processRows_getD (rows : List (List (List Char))) (states : List ColType) (i : Nat)
    (h : i < states.length) :
    (processRows states rows).getD i TYPE_UNKNOWN
      = List.foldl observe (states.getD i TYPE_UNKNOWN)
          (rows.map (fun r => getCell r i)) := by
  induction rows generalizing states with
  | nil => rfl
  | cons r rest ih =>
    show (processRows (observe_row states r) rest).getD i TYPE_UNKNOWN = _
    rw [ih (observe_row states r) (by rw [observe_row_length]; exact h),
      observe_row_getD states r i h]
    rfl

lemma map_getCell_eq {rows1 rows2 : List (List (List Char))} (i : Nat)
    (hlen : rows1.length = rows2.length)
    (hagree : ∀ k, k < rows1.length → getCell (rows1.getD k []) i = getCell (rows2.getD k []) i) :
    rows1.map (fun r => getCell r i) = rows2.map (fun r => getCell r i) := by
  induction rows1 generalizing rows2 with
  | nil =>
    cases rows2 with
    | nil => rfl
    | cons r2 rest2 => simp at hlen
  | cons r1 rest1 ih =>
    cases rows2 with
    | nil => simp at hlen
    | cons r2 rest2 =>
      simp only [List.map_cons]
      congr 1
      · exact hagree 0 (by simp)
      · exact ih (by simpa using hlen)
          (fun k hk => by simpa using hagree (k + 1) (by simpa using hk))

/-- C10: column noninterference.  The final inferred type of column `i`
depends only on the sequence of field values observed at index `i`: two
runs over the same number of data rows that agree at position `i` of every
row (after the empty-string padding of short rows) produce the same final
type for column `i`, whatever the other columns contain. -/
theorem C10_column_noninterference (n i : Nat) (rows1 rows2 : List (List (List Char)))
    (hi : i < n) (hlen : rows1.length = rows2.length)
    (hagree : ∀ k, k < rows1.length →
      getCell (rows1.getD k []) i = getCell (rows2.getD k []) i) :
    (finalizeTypes (processRows (List.replicate n TYPE_UNKNOWN) rows1)).getD i TYPE_UNKNOWN
      = (finalizeTypes (processRows (List.replicate n TYPE_UNKNOWN) rows2)).getD
          i TYPE_UNKNOWN := by
  have hlen1 : i < (processRows (List.replicate n TYPE_UNKNOWN) rows1).length := by
    have : ∀ (rows : List (List (List Char))) (s : List ColType),
        (processRows s rows).length = s.length := by
      intro rows
      induction rows with
      | nil => intro s; rfl
      | cons r rest ih =>
        intro s
        show (processRows (observe_row s r) rest).length = s.length
        rw [ih (observe_row s r), observe_row_length]
    rw [this]
    simpa using hi
  have hlen2 : i < (processRows (List.replicate n TYPE_UNKNOWN) rows2).length := by
    have : ∀ (rows : List (List (List Char))) (s : List ColType),
        (processRows s rows).length = s.length := by
      intro rows
      induction rows with
      | nil => intro s; rfl
      | cons r rest ih =>
        intro s
        show (processRows (observe_row s r) rest).length = s.length
        rw [ih (observe_row s r), observe_row_length]
    rw [this]
    simpa using hi
  have hmapfin : ∀ (L : List ColType) (h : i < L.length),
      (finalizeTypes L).getD i TYPE_UNKNOWN = finalize (L.getD i TYPE_UNKNOWN) := by
    intro L h
    have h' : i < (finalizeTypes L).length := by simpa [finalizeTypes] using h
    rw [List.getD_eq_getElem _ _ h', List.getD_eq_getElem _ _ h]
    simp [finalizeTypes]
  rw [hmapfin _ hlen1, hmapfin _ hlen2]
  congr 1
  rw [processRows_getD rows1 _ i (by simpa using hi),
    processRows_getD rows2 _ i (by simpa using hi),
    map_getCell_eq i hlen hagree]

/-- Witness for C10: two runs agreeing in column 0 but not in column 1. -/
theorem C10_column_noninterference_witness :
    (finalizeTypes (processRows (List.replicate 2 TYPE_UNKNOWN)
        [[['1'], ['x']], [['2'], ['y']]])).getD 0 TYPE_UNKNOWN
      = (finalizeTypes (processRows (List.replicate 2 TYPE_UNKNOWN)
        [[['1'], ['3', '.', '5']], [['2']]])).getD 0 TYPE_UNKNOWN :=
  C10_column_noninterference 2 0 [[['1'], ['x']], [['2'], ['y']]]
    [[['1'], ['3', '.', '5']], [['2']]] (by decide) (by decide)
    (fun k hk => by
      have hk2 : k < 2 := by simpa using hk
      interval_cases k <;> rfl)
